import Mathlib

/-!
# Verification of the document-intake pipeline (`process_intake.py`)

Shallow embedding of the pure/algorithmic parts of the multi-phase
document-intake pipeline: filename sanitization and the centralized text
registry, OCR page-text reconstruction, markdown code-fence stripping,
the phase-1/phase-2 batch models with their worker-pool sizing, the
resumability loader, the plaintext extraction handler's filesystem
effects, the summary retry loop, and document-type detection.

Filenames and text are modelled as `List Char`; filesystem state is
passed explicitly; external calls are modelled by outcome oracles.
-/

namespace ProcessIntake

/-! ## Decimal rendering of counters (Python `str` on a `Nat`) -/

/-- Decimal digits of `n`, least-significant first, driven by explicit fuel
(`n` itself is always enough fuel since `n / 10 < n` for `n > 0`). -/
def toDigitsRevFuel : Nat → Nat → List Nat
  | 0, _ => []
  | fuel + 1, n => if n = 0 then [] else n % 10 :: toDigitsRevFuel fuel (n / 10)

/-- Base-10 value of a least-significant-first digit list. -/
def evalRev : List Nat → Nat
  | [] => 0
  | d :: ds => d + 10 * evalRev ds

/-- Numeric value of a decimal digit character. -/
def digitVal (c : Char) : Nat := c.toNat - 48

/-- Decimal string rendering of a natural number, as Python `str` renders
the collision counter in `_get_centralized_path`. -/
def natRepr (n : Nat) : List Char :=
  if n = 0 then ['0'] else ((toDigitsRevFuel n n).reverse.map Nat.digitChar)

/-! ## Filename sanitization (`_sanitize_filename`) -/

/-- Character class `[a-z0-9_-]` of the regex in `_sanitize_filename`. -/
def isAllowedChar (c : Char) : Bool :=
  ('a' ≤ c && c ≤ 'z') || ('0' ≤ c && c ≤ '9') || c = '_' || c = '-'

/-- `filename.rsplit('.', 1)[0] if '.' in filename else filename`:
everything before the last dot, or the whole name if it has no dot. -/
def stripExt (fn : List Char) : List Char :=
  if '.' ∈ fn then ((fn.reverse.dropWhile (fun c => c ≠ '.')).tail).reverse
  else fn

/-- `re.sub(r'_+', '_', name)`: collapse runs of underscores to one. -/
def collapseUnderscores : List Char → List Char
  | [] => []
  | [c] => [c]
  | c1 :: c2 :: rest =>
    if c1 = '_' && c2 = '_' then collapseUnderscores (c2 :: rest)
    else c1 :: collapseUnderscores (c2 :: rest)

/-- `_sanitize_filename`: strip extension, lowercase, replace characters
outside `[a-z0-9_-]` with underscores, collapse repeated underscores,
truncate to 200 characters. -/
def sanitize_filename (fn : List Char) : List Char :=
  let name := stripExt fn
  let name := name.map Char.toLower
  let name := name.map (fun c => if isAllowedChar c then c else '_')
  let name := collapseUnderscores name
  name.take 200

/-! ## Centralized text registry (`_get_centralized_path`) -/

/-- The candidate filename tried at collision counter `k`:
`base ++ suffix` for `k = 0`, else `base ++ "_" ++ str(k) ++ suffix`. -/
def candidateName (base suffix : List Char) (k : Nat) : List Char :=
  if k = 0 then base ++ suffix
  else base ++ ('_' :: natRepr k) ++ suffix

/-- The `while True` search of `_get_centralized_path`, as a fuel-indexed
loop: try counters `k, k+1, …` until a candidate is not among the existing
filenames.  With fuel `existing.length + 1` the search always succeeds
(`findFreeName_isSome`), mirroring the termination of the Python loop. -/
def findFreeName (existing : List (List Char)) (base suffix : List Char) :
    Nat → Nat → Option (List Char)
  | _, 0 => none
  | k, fuel + 1 =>
    let c := candidateName base suffix k
    if c ∈ existing then findFreeName existing base suffix (k + 1) fuel
    else some c

/-- `_get_centralized_path`: unique filename in the centralized folder,
given the set of filenames already present there.  Total wrapper around
the always-successful search. -/
def get_centralized_path (existing : List (List Char)) (base suffix : List Char) :
    List Char :=
  (findFreeName existing base suffix 0 (existing.length + 1)).getD (base ++ suffix)

/-- Sequence of centralized paths returned when each call's result is
created on disk before the next call (the extraction workers write the
file at the returned path immediately). -/
def centralizedCallSeq : List (List Char) → List (List Char) → List Char →
    List (List Char)
  | _, [], _ => []
  | existing, b :: bs, suffix =>
    let p := get_centralized_path existing b suffix
    p :: centralizedCallSeq (p :: existing) bs suffix

/-! ## OCR page-text reconstruction (`extract_text_with_mistral`) -/

/-- The page-reassembly loop of `extract_text_with_mistral`: for each page
at enumerate-index `i`, append `"--- Page {i+1} ---\n"` and then the page
content followed by two newlines. -/
def extract_text_pages (i : Nat) : List (List Char) → List Char
  | [] => []
  | p :: ps =>
    ("--- Page ".data ++ natRepr (i + 1) ++ " ---".data ++ ['\n'])
      ++ (p ++ "\n\n".data) ++ extract_text_pages (i + 1) ps

/-- The spec's formulation: the block emitted for page number `n`
(1-indexed): the literal line `--- Page N ---`, a newline, the content,
two newlines. -/
def pageBlock (n : Nat) (p : List Char) : List Char :=
  "--- Page ".data ++ natRepr n ++ " ---".data ++ "\n".data ++ p ++ "\n\n".data

/-- The spec's formulation of the whole reconstruction: concatenation of
the per-page blocks in page order, page numbers starting at 1. -/
def reconstructedText (pages : List (List Char)) : List Char :=
  (pages.enum.map (fun ip => pageBlock (ip.1 + 1) ip.2)).flatten

/-! ## Markdown code-fence stripping (summary JSON cleaning) -/

/-- Python `str.strip()` whitespace characters. -/
def isPyWS (c : Char) : Bool :=
  c = ' ' || c = '\t' || c = '\n' || c = '\r' || c = '\x0b' || c = '\x0c'

/-- Python `str.strip()`: drop whitespace from both ends. -/
def pyStrip (l : List Char) : List Char :=
  ((l.dropWhile isPyWS).reverse.dropWhile isPyWS).reverse

/-- Python `str.startswith`, on character lists. -/
def isPre : List Char → List Char → Bool
  | [], _ => true
  | _ :: _, [] => false
  | a :: as, b :: bs => if a = b then isPre as bs else false

/-- Python `str.endswith`, on character lists. -/
def endsW (needle hay : List Char) : Bool := isPre needle.reverse hay.reverse

/-- The code-fence cleaning applied to a summary file's content before
`json.loads` (in `phase_3_synthesize_case_summary` and
`_load_summarized_documents`): strip, drop a leading ` ```json ` (7 chars)
or ` ``` ` (3 chars), drop a trailing ` ``` `, strip again. -/
def clean_summary_content (content : List Char) : List Char :=
  let c1 := pyStrip content
  let c2 := if isPre "```json".data c1 then c1.drop 7 else c1
  let c3 := if isPre "```".data c2 then c2.drop 3 else c2
  let c4 := if endsW "```".data c3 then c3.take (c3.length - 3) else c3
  pyStrip c4

/-- A response wrapped in markdown JSON fences. -/
def wrapJsonFence (s : List Char) : List Char :=
  "```json\n".data ++ (s ++ "\n```".data)

/-! ## Phase 1 / phase 2 batch models and the resumability loader -/

/-- Outcome of a single extraction handler call: the handlers re-raise
external failures as exceptions, which `_extract_single_document_router`
catches per item. -/
structure ExtractJob where
  name : List Char
  outcome : Except (List Char) Unit

/-- Result dict produced per item by the router. -/
structure ExtractResult where
  name : List Char
  success : Bool
  error : Option (List Char)
deriving DecidableEq

/-- `_extract_single_document_router`: run the handler, catching any
exception into a structured failure result (so a per-item failure never
escapes the batch loop). -/
def extract_single_document_router (j : ExtractJob) : ExtractResult :=
  match j.outcome with
  | .ok _ => { name := j.name, success := true, error := none }
  | .error e => { name := j.name, success := false, error := some e }

/-- Result of a batch phase: the pool size used (`none` when the phase
returned early on an empty batch and created no pool), plus the
successful and failed item lists. -/
structure PhaseResult where
  workers : Option Nat
  successful : List ExtractResult
  failed : List ExtractResult

/-- `phase_1_extract_all`: early-return on an empty batch, otherwise
`max_workers = min(10, cpu_count(), len(all_files))`, map the router over
all files, and split results by the success flag. -/
def phase_1_extract_all (cpu : Nat) (jobs : List ExtractJob) : PhaseResult :=
  if jobs.isEmpty then { workers := none, successful := [], failed := [] }
  else
    let results := jobs.map extract_single_document_router
    { workers := some (min (min 10 cpu) jobs.length)
      successful := results.filter (fun r => r.success)
      failed := results.filter (fun r => !r.success) }

/-- `phase_2_summarize_all`: early-return on an empty batch, otherwise the
pool is created with `min(num_workers, cpu_count())` processes (the item
count does not enter), and the static summary worker is mapped over the
documents; `num_workers` defaults to 10 at every call site. -/
def phase_2_summarize_all (cpu num_workers : Nat) (docs : List ExtractJob) :
    PhaseResult :=
  if docs.isEmpty then { workers := none, successful := [], failed := [] }
  else
    let results := docs.map extract_single_document_router
    { workers := some (min num_workers cpu)
      successful := results.filter (fun r => r.success)
      failed := results.filter (fun r => !r.success) }

/-- The phase-1 → phase-2 handoff of `run_all_phases` (exhibit extraction
disabled, its default): phase 2 is invoked on exactly `extracted_docs`,
the successful results of phase 1; if phase 1 produced nothing the run
stops and phase 2 is never entered. -/
structure PipelineRun where
  p1 : PhaseResult
  phase2Input : Option (List ExtractResult)

def run_all_phases (cpu : Nat) (jobs : List ExtractJob) : PipelineRun :=
  let p1 := phase_1_extract_all cpu jobs
  if p1.successful.isEmpty then { p1 := p1, phase2Input := none }
  else { p1 := p1, phase2Input := some p1.successful }

/-! ## Resumability loader (`_load_extracted_documents`) -/

/-- A document folder on disk: its name and the filenames it contains. -/
structure DiskFolder where
  name : List Char
  files : List (List Char)
deriving DecidableEq

/-- `_load_extracted_documents`: scan the folders under `documents/`; keep
a folder iff it contains `full_text_extraction.txt` and at least one
`*.pdf` file, recording the folder and the first matching PDF. -/
def load_extracted_documents (folders : List DiskFolder) :
    List (List Char × List Char) :=
  folders.filterMap (fun fo =>
    if "full_text_extraction.txt".data ∈ fo.files then
      match fo.files.filter (fun f => endsW ".pdf".data f) with
      | [] => none
      | p :: _ => some (fo.name, p)
    else none)

/-- File-type category relevant to which artifacts phase 1 leaves in the
per-document folder. -/
inductive FType where
  | pdf | docx | pptx | csv | xlsx | txt | md | image | audio
deriving DecidableEq

def isPlainTextType : FType → Bool
  | .txt => true
  | .md => true
  | _ => false

/-- A successfully extracted intake document: folder stem, original
filename, detected type. -/
structure IntakeDoc where
  stem : List Char
  fname : List Char
  ftype : FType
deriving DecidableEq

/-- Contents of the per-document folder after a successful extraction:
the moved original file, plus `full_text_extraction.txt` for every
handler except the plaintext one (which writes no per-document copy). -/
def docFolderFiles (d : IntakeDoc) : List (List Char) :=
  [d.fname] ++ (if isPlainTextType d.ftype then []
    else ["full_text_extraction.txt".data])

/-- The folder tree under `documents/` after a successful extract run:
one folder per document (in processing order) plus the centralized
`full_text_extractions` folder, which the loader's `glob("*/")` also
visits. -/
def caseFolders (docs : List IntakeDoc) (centralFiles : List (List Char)) :
    List DiskFolder :=
  docs.map (fun d => { name := d.stem, files := docFolderFiles d })
    ++ [{ name := "full_text_extractions".data, files := centralFiles }]

/-- The document list `run_all_phases` passes in memory from phase 1 to
phase 2, projected to (folder, source-file reference). -/
def phase1InMemory (docs : List IntakeDoc) : List (List Char × List Char) :=
  docs.map (fun d => (d.stem, d.fname))

/-! ## Summary retry loop (`_generate_summary_sync`, subprocess fallback) -/

/-- Outcome of one `subprocess.run` invocation of the Gemini CLI:
either the process completed (with the zero/non-zero return code, whether
its stderr carries a rate-limit signal, and whether the expected output
file was created), or `subprocess.TimeoutExpired` was raised. -/
inductive CallOutcome where
  | completed (returncode_zero : Bool) (rate_limited : Bool)
      (output_created : Bool)
  | timedOut
deriving DecidableEq

/-- Trace of the retry loop: number of subprocess calls made, the backoff
sleeps performed between attempts (in seconds, chronological order), and
the final outcome. -/
structure RetryTrace where
  calls : Nat
  sleeps : List Nat
  outcome : Except (List Char) Unit

/-- The `for attempt in range(max_retries)` loop of
`_generate_summary_sync`'s subprocess fallback.  On a non-zero exit with
a rate-limit signal and a non-final attempt, sleep `(attempt+1)*2`
seconds and retry; on a timeout and a non-final attempt, retry with no
sleep; every other failure raises immediately; a zero exit either
succeeds or raises on a missing output file.  The fuel argument counts
the remaining loop iterations and is never exhausted when started at
`(0, maxRetries)`, since the final attempt never continues. -/
def retryAux (o : Nat → CallOutcome) (maxRetries : Nat) :
    Nat → Nat → RetryTrace
  | _, 0 => { calls := 0, sleeps := [], outcome := .error [] }
  | attempt, fuel + 1 =>
    match o attempt with
    | .timedOut =>
      if attempt < maxRetries - 1 then
        let r := retryAux o maxRetries (attempt + 1) fuel
        { calls := r.calls + 1, sleeps := r.sleeps, outcome := r.outcome }
      else
        { calls := 1, sleeps := []
          outcome := .error "Gemini timeout after 3 attempts".data }
    | .completed false rl _ =>
      if rl = true ∧ attempt < maxRetries - 1 then
        let r := retryAux o maxRetries (attempt + 1) fuel
        { calls := r.calls + 1, sleeps := (attempt + 1) * 2 :: r.sleeps
          outcome := r.outcome }
      else
        { calls := 1, sleeps := [], outcome := .error "Gemini failed".data }
    | .completed true _ created =>
      if created then { calls := 1, sleeps := [], outcome := .ok () }
      else
        { calls := 1, sleeps := []
          outcome := .error "Gemini did not create output file".data }

/-- The subprocess-fallback retry loop with `max_retries = 3`. -/
def generate_summary_sync (o : Nat → CallOutcome) : RetryTrace :=
  retryAux o 3 0 3

/-- The extraction path makes exactly one external call and never
retries: `_extract_mistral_ocr` calls `extract_text_with_mistral` once
and converts any failure directly into an exception. -/
def extraction_attempts (o : Nat → CallOutcome) : RetryTrace :=
  match o 0 with
  | .timedOut => { calls := 1, sleeps := [], outcome := .error "timeout".data }
  | .completed false _ _ =>
    { calls := 1, sleeps := [], outcome := .error "Mistral OCR failed".data }
  | .completed true _ _ => { calls := 1, sleeps := [], outcome := .ok () }

/-! ## Plaintext extraction handler (`_extract_plaintext`) -/

/-- A write performed by a handler: target folder kind, filename,
content. -/
structure CentralWrite where
  fileName : List Char
  content : List Char

/-- Result of `_extract_plaintext`: the original file's content is
written to exactly one freshly-named path in the centralized folder; no
file at all (in particular no `full_text_extraction.txt`) is written in
the per-document folder; the returned record marks `text_extracted`
false with method `direct_copy`. -/
structure PlaintextResult where
  docFolderWrites : List CentralWrite
  centralWrites : List CentralWrite
  extraction_method : List Char
  text_extracted : Bool
  success : Bool

def extract_plaintext (fname content : List Char)
    (centralExisting : List (List Char)) : PlaintextResult :=
  let cpath := get_centralized_path centralExisting
    (sanitize_filename fname) ".txt".data
  { docFolderWrites := []
    centralWrites := [{ fileName := cpath, content := content }]
    extraction_method := "direct_copy".data
    text_extracted := false
    success := true }

/-! ## Document-type detection (`detect_document_type`) -/

/-- `DOCUMENT_TYPE_PATTERNS`, in dict insertion order. -/
def DOCUMENT_TYPE_PATTERNS : List (List Char × List (List Char)) :=
  [("Motion".data, ["motion".data, "mtd".data, "mtc".data, "mts".data,
      "mtv".data]),
   ("Response".data, ["response".data, "opposition".data, "reply".data,
      "answer".data]),
   ("Complaint".data, ["complaint".data, "petition".data,
      "amended complaint".data]),
   ("Order".data, ["order".data, "ruling".data, "judgment".data,
      "decree".data]),
   ("Notice".data, ["notice".data, "notification".data, "noa".data]),
   ("Evidence".data, ["exhibit".data, "evidence".data, "attachment".data,
      "affidavit".data]),
   ("Research".data, ["memo".data, "research".data, "analysis".data,
      "brief".data])]

/-- Python `pattern in filename_lower`: substring test. -/
def containsSub (hay needle : List Char) : Bool :=
  (List.range (hay.length + 1)).any (fun i => isPre needle (hay.drop i))

/-- `detect_document_type`: lowercase the filename stem, return the first
configured type one of whose keyword patterns occurs in it; otherwise
fall back to the raw stem itself. -/
def detect_document_type (stem : List Char) : List Char :=
  match DOCUMENT_TYPE_PATTERNS.find?
      (fun tp => tp.2.any (fun p => containsSub (stem.map Char.toLower) p)) with
  | some tp => tp.1
  | none => stem

/-- Whether an extraction job's handler call succeeds. -/
def job_ok (j : ExtractJob) : Bool :=
  match j.outcome with
  | .ok _ => true
  | .error _ => false

/-! ## The claims -/

/-! ## Lemmas and claim theorems -/

theorem evalRev_toDigitsRevFuel : ∀ (fuel n : Nat), n ≤ fuel →
    evalRev (toDigitsRevFuel fuel n) = n := by
  intro fuel
  induction fuel with
  | zero => intro n hn; interval_cases n; rfl
  | succ fuel ih =>
    intro n hn
    by_cases h0 : n = 0
    · subst h0; simp [toDigitsRevFuel, evalRev]
    · have hdiv : n / 10 < n := Nat.div_lt_self (Nat.pos_of_ne_zero h0) (by norm_num)
      have hdiv' : n / 10 ≤ fuel := by omega
      simp only [toDigitsRevFuel, if_neg h0, evalRev]
      rw [ih _ hdiv']
      exact Nat.mod_add_div n 10

theorem toDigitsRevFuel_lt_ten : ∀ (fuel n d : Nat),
    d ∈ toDigitsRevFuel fuel n → d < 10 := by
  intro fuel
  induction fuel with
  | zero => intro n d hd; simp [toDigitsRevFuel] at hd
  | succ fuel ih =>
    intro n d hd
    by_cases h0 : n = 0
    · subst h0; simp [toDigitsRevFuel] at hd
    · simp only [toDigitsRevFuel, if_neg h0, List.mem_cons] at hd
      rcases hd with h | h
      · subst h; exact Nat.mod_lt _ (by norm_num)
      · exact ih _ _ h

theorem toDigitsRevFuel_ne_nil (n : Nat) (h : n ≠ 0) :
    toDigitsRevFuel n n ≠ [] := by
  cases n with
  | zero => exact absurd rfl h
  | succ m => simp [toDigitsRevFuel, h]

theorem digitVal_digitChar : ∀ d < 10, digitVal (Nat.digitChar d) = d := by decide

theorem natRepr_ne_nil (n : Nat) : natRepr n ≠ [] := by
  unfold natRepr
  by_cases h0 : n = 0
  · simp [h0]
  · simp only [if_neg h0, ne_eq, List.map_eq_nil_iff, List.reverse_eq_nil_iff]
    exact toDigitsRevFuel_ne_nil n h0

theorem natRepr_injective : Function.Injective natRepr := by
  intro m n hmn
  have decode : ∀ k : Nat, k ≠ 0 →
      ((toDigitsRevFuel k k).reverse.map Nat.digitChar).map digitVal
        = (toDigitsRevFuel k k).reverse := by
    intro k _
    rw [List.map_map]
    apply List.map_congr_left ?_ |>.trans (List.map_id _)
    intro d hd
    have : d < 10 := toDigitsRevFuel_lt_ten _ _ _ (List.mem_reverse.mp hd)
    exact digitVal_digitChar d this
  have value : ∀ k : Nat, k ≠ 0 →
      evalRev ((toDigitsRevFuel k k).reverse.reverse) = k := by
    intro k _
    rw [List.reverse_reverse]
    exact evalRev_toDigitsRevFuel k k (Nat.le_refl k)
  unfold natRepr at hmn
  by_cases hm : m = 0 <;> by_cases hn : n = 0
  · omega
  · rw [if_pos hm, if_neg hn] at hmn
    have h2 := congrArg (List.map digitVal) hmn.symm
    rw [decode n hn] at h2
    have h3 := congrArg evalRev (congrArg List.reverse h2)
    rw [value n hn] at h3
    simp [digitVal, evalRev] at h3
    omega
  · rw [if_neg hm, if_pos hn] at hmn
    have h2 := congrArg (List.map digitVal) hmn
    rw [decode m hm] at h2
    have h3 := congrArg evalRev (congrArg List.reverse h2)
    rw [value m hm] at h3
    simp [digitVal, evalRev] at h3
    omega
  · rw [if_neg hm, if_neg hn] at hmn
    have h2 := congrArg (List.map digitVal) hmn
    rw [decode m hm, decode n hn] at h2
    have h3 := congrArg evalRev (congrArg List.reverse h2)
    rw [value m hm, value n hn] at h3
    exact h3

theorem collapseUnderscores_subset : ∀ (l : List Char) (c : Char),
    c ∈ collapseUnderscores l → c ∈ l := by
  intro l
  induction l with
  | nil => intro c hc; simp [collapseUnderscores] at hc
  | cons c1 rest ih =>
    intro c hc
    cases rest with
    | nil => simpa [collapseUnderscores] using hc
    | cons c2 rest' =>
      by_cases h : c1 = '_' && c2 = '_'
      · simp only [collapseUnderscores, if_pos h] at hc
        exact List.mem_cons_of_mem _ (ih c hc)
      · simp only [collapseUnderscores, if_neg h, List.mem_cons] at hc
        rcases hc with h1 | h1
        · exact h1 ▸ List.mem_cons_self _ _
        · exact List.mem_cons_of_mem _ (ih c h1)

theorem sanitize_filename_allowed (fn : List Char) :
    ∀ c ∈ sanitize_filename fn, isAllowedChar c = true := by
  intro c hc
  unfold sanitize_filename at hc
  have hc2 := collapseUnderscores_subset _ _ (List.mem_of_mem_take hc)
  simp only [List.mem_map] at hc2
  obtain ⟨d, _, hd2⟩ := hc2
  by_cases h : isAllowedChar d
  · rw [if_pos h] at hd2; exact hd2 ▸ h
  · rw [if_neg h] at hd2; exact hd2 ▸ (by decide)

theorem sanitize_filename_length (fn : List Char) :
    (sanitize_filename fn).length ≤ 200 := by
  unfold sanitize_filename
  simp [List.length_take]

theorem candidateName_injective (base suffix : List Char) :
    Function.Injective (candidateName base suffix) := by
  intro j k hjk
  unfold candidateName at hjk
  rcases Nat.eq_zero_or_pos j with hj | hj <;>
    rcases Nat.eq_zero_or_pos k with hk | hk
  · omega
  · rw [if_pos hj, if_neg (Nat.pos_iff_ne_zero.mp hk)] at hjk
    have := congrArg List.length hjk
    have hne := natRepr_ne_nil k
    have : (natRepr k).length ≠ 0 := fun h => hne (List.eq_nil_of_length_eq_zero h)
    simp [List.length_append] at *
    omega
  · rw [if_neg (Nat.pos_iff_ne_zero.mp hj), if_pos hk] at hjk
    have := congrArg List.length hjk
    have hne := natRepr_ne_nil j
    have : (natRepr j).length ≠ 0 := fun h => hne (List.eq_nil_of_length_eq_zero h)
    simp [List.length_append] at *
    omega
  · rw [if_neg (Nat.pos_iff_ne_zero.mp hj), if_neg (Nat.pos_iff_ne_zero.mp hk)] at hjk
    have h1 := List.append_cancel_right hjk
    have h2 := List.append_cancel_left h1
    have h3 : natRepr j = natRepr k := by
      injection h2 with _ h
    exact natRepr_injective h3

theorem findFreeName_eq_none (existing : List (List Char)) (base suffix : List Char) :
    ∀ (fuel k : Nat), findFreeName existing base suffix k fuel = none →
      ∀ j < fuel, candidateName base suffix (k + j) ∈ existing := by
  intro fuel
  induction fuel with
  | zero => intro k _ j hj; omega
  | succ fuel ih =>
    intro k hnone j hj
    by_cases hmem : candidateName base suffix k ∈ existing
    · simp only [findFreeName, if_pos hmem] at hnone
      cases j with
      | zero => simpa using hmem
      | succ j' =>
        have := ih (k + 1) hnone j' (by omega)
        have harith : k + 1 + j' = k + (j' + 1) := by omega
        rwa [harith] at this
    · simp [findFreeName, if_neg hmem] at hnone

theorem findFreeName_isSome (existing : List (List Char)) (base suffix : List Char) :
    (findFreeName existing base suffix 0 (existing.length + 1)).isSome := by
  by_contra h
  have hnone : findFreeName existing base suffix 0 (existing.length + 1) = none := by
    cases hfind : findFreeName existing base suffix 0 (existing.length + 1) with
    | none => rfl
    | some c => rw [hfind] at h; simp at h
  have hall := findFreeName_eq_none existing base suffix _ 0 hnone
  set L := existing.length with hL
  have hsub : ∀ x ∈ (List.range (L + 1)).map (candidateName base suffix),
      x ∈ existing := by
    intro x hx
    simp only [List.mem_map, List.mem_range] at hx
    obtain ⟨j, hj1, hj2⟩ := hx
    have := hall j hj1
    rw [Nat.zero_add] at this
    exact hj2 ▸ this
  have hnodup : ((List.range (L + 1)).map (candidateName base suffix)).Nodup :=
    (List.nodup_range _).map (candidateName_injective base suffix)
  have hcard1 : ((List.range (L + 1)).map (candidateName base suffix)).toFinset.card
      = L + 1 := by
    rw [List.toFinset_card_of_nodup hnodup]
    simp
  have hsub2 : ((List.range (L + 1)).map (candidateName base suffix)).toFinset
      ⊆ existing.toFinset := by
    intro x hx
    rw [List.mem_toFinset] at hx ⊢
    exact hsub x hx
  have := Finset.card_le_card hsub2
  have hle := existing.toFinset_card_le
  omega

theorem findFreeName_not_mem (existing : List (List Char)) (base suffix : List Char) :
    ∀ (fuel k : Nat) (c : List Char),
      findFreeName existing base suffix k fuel = some c → c ∉ existing := by
  intro fuel
  induction fuel with
  | zero => intro k c h; simp [findFreeName] at h
  | succ fuel ih =>
    intro k c h
    by_cases hmem : candidateName base suffix k ∈ existing
    · simp only [findFreeName, if_pos hmem] at h
      exact ih (k + 1) c h
    · simp only [findFreeName, if_neg hmem, Option.some.injEq] at h
      exact h ▸ hmem

theorem get_centralized_path_not_mem (existing : List (List Char))
    (base suffix : List Char) : get_centralized_path existing base suffix ∉ existing := by
  unfold get_centralized_path
  cases hfind : findFreeName existing base suffix 0 (existing.length + 1) with
  | none =>
    have := findFreeName_isSome existing base suffix
    rw [hfind] at this
    simp at this
  | some c =>
    simpa using findFreeName_not_mem existing base suffix _ 0 c hfind

theorem centralizedCallSeq_nodup_aux : ∀ (bs : List (List Char))
    (existing : List (List Char)) (suffix : List Char),
    (centralizedCallSeq existing bs suffix).Nodup ∧
      ∀ p ∈ centralizedCallSeq existing bs suffix, p ∉ existing := by
  intro bs
  induction bs with
  | nil => intro existing suffix; simp [centralizedCallSeq]
  | cons b bs ih =>
    intro existing suffix
    set p := get_centralized_path existing b suffix with hp
    obtain ⟨ihnodup, ihfresh⟩ := ih (p :: existing) suffix
    constructor
    · simp only [centralizedCallSeq, List.nodup_cons]
      refine ⟨fun hmem => ?_, ihnodup⟩
      exact ihfresh p hmem (List.mem_cons_self _ _)
    · intro q hq
      simp only [centralizedCallSeq, List.mem_cons] at hq
      rcases hq with h | h
      · exact h ▸ get_centralized_path_not_mem existing b suffix
      · intro hmem
        exact ihfresh q h (List.mem_cons_of_mem _ hmem)

theorem natRepr_one : natRepr 1 = ['1'] := by decide

theorem natRepr_two : natRepr 2 = ['2'] := by decide

theorem get_centralized_path_empty (b s : List Char) :
    get_centralized_path [] b s = candidateName b s 0 := by
  simp [get_centralized_path, findFreeName]

theorem get_centralized_path_one (b s : List Char) :
    get_centralized_path [candidateName b s 0] b s = candidateName b s 1 := by
  have h10 : candidateName b s 1 ≠ candidateName b s 0 := fun h => by
    have := candidateName_injective b s h; omega
  simp [get_centralized_path, findFreeName, h10]

theorem get_centralized_path_two (b s : List Char) :
    get_centralized_path [candidateName b s 1, candidateName b s 0] b s
      = candidateName b s 2 := by
  have h21 : candidateName b s 2 ≠ candidateName b s 1 := fun h => by
    have := candidateName_injective b s h; omega
  have h20 : candidateName b s 2 ≠ candidateName b s 0 := fun h => by
    have := candidateName_injective b s h; omega
  simp [get_centralized_path, findFreeName, h21, h20]

theorem centralizedCallSeq_same_base (b s : List Char) :
    centralizedCallSeq [] [b, b, b] s
      = [b ++ s, b ++ ('_' :: '1' :: s), b ++ ('_' :: '2' :: s)] := by
  simp only [centralizedCallSeq, get_centralized_path_empty,
    get_centralized_path_one, get_centralized_path_two]
  simp [candidateName, natRepr_one, natRepr_two]

theorem extract_text_pages_enumFrom : ∀ (pages : List (List Char)) (i : Nat),
    extract_text_pages i pages
      = ((pages.enumFrom i).map (fun ip => pageBlock (ip.1 + 1) ip.2)).flatten := by
  intro pages
  induction pages with
  | nil => intro i; simp [extract_text_pages]
  | cons p ps ih =>
    intro i
    simp only [extract_text_pages, List.enumFrom_cons, List.map_cons,
      List.flatten_cons, ih (i + 1), pageBlock]
    simp [List.append_assoc]

theorem extract_text_eq_reconstructed (pages : List (List Char)) :
    extract_text_pages 0 pages = reconstructedText pages := by
  rw [reconstructedText]
  simp only [List.enum]
  exact extract_text_pages_enumFrom pages 0

theorem isPre_iff_take : ∀ (p l : List Char),
    isPre p l = true ↔ l.take p.length = p := by
  intro p
  induction p with
  | nil => intro l; simp [isPre]
  | cons a as ih =>
    intro l
    cases l with
    | nil => simp [isPre]
    | cons b bs =>
      by_cases hab : a = b
      · subst hab
        simp [isPre, ih bs]
      · simp only [isPre, if_neg hab, Bool.false_eq_true, false_iff]
        intro h
        rw [List.length_cons, List.take_succ_cons] at h
        injection h with hhead _
        exact hab hhead.symm

theorem dropWhile_append_ne_nil (p : Char → Bool) (l m : List Char)
    (h : l.dropWhile p = l) (hne : l ≠ []) :
    (l ++ m).dropWhile p = l ++ m := by
  cases l with
  | nil => exact absurd rfl hne
  | cons a as =>
    have ha : p a = false := by
      by_contra hpa
      have hpa' : p a = true := by simpa using hpa
      rw [List.dropWhile_cons, if_pos hpa'] at h
      have hlen := congrArg List.length h
      have hle := (List.dropWhile_sublist (l := as) (p := p)).length_le
      simp at hlen
      omega
    simp [List.dropWhile_cons, ha] at h ⊢

theorem pyStrip_eq_self (x : List Char) (h1 : x.dropWhile isPyWS = x)
    (h2 : x.reverse.dropWhile isPyWS = x.reverse) : pyStrip x = x := by
  simp [pyStrip, h1, h2]

theorem pyStrip_cons_ws (a : Char) (l : List Char) (h : isPyWS a = true) :
    pyStrip (a :: l) = pyStrip l := by
  simp [pyStrip, List.dropWhile_cons, h]

theorem dropWhile_append_split (p : Char → Bool) : ∀ (l m : List Char),
    (l ++ m).dropWhile p
      = if (l.dropWhile p).isEmpty then m.dropWhile p else l.dropWhile p ++ m := by
  intro l
  induction l with
  | nil => intro m; simp
  | cons a as ih =>
    intro m
    by_cases ha : p a
    · simp [List.dropWhile_cons, ha, ih m]
    · simp [List.dropWhile_cons, ha]

theorem pyStrip_concat_ws (a : Char) (l : List Char) (h : isPyWS a = true) :
    pyStrip (l ++ [a]) = pyStrip l := by
  unfold pyStrip
  rw [dropWhile_append_split]
  cases hcons : l.dropWhile isPyWS with
  | nil => simp [List.dropWhile_cons, h]
  | cons x xs => simp [List.reverse_append, List.dropWhile_cons, h]

theorem pyStrip_newline_wrap (s : List Char) :
    pyStrip ('\n' :: (s ++ ['\n'])) = pyStrip s := by
  rw [pyStrip_cons_ws _ _ (by decide), pyStrip_concat_ws _ _ (by decide)]

theorem isPre_head : ∀ (p l : List Char), p ≠ [] → l ≠ [] →
    isPre p l = true → p.head? = l.head? := by
  intro p l hp hl h
  cases p with
  | nil => exact absurd rfl hp
  | cons a as =>
    cases l with
    | nil => exact absurd rfl hl
    | cons b bs =>
      by_cases hab : a = b
      · simp [hab]
      · rw [isPre, if_neg hab] at h
        exact absurd h Bool.false_ne_true

theorem clean_summary_content_fenced (s : List Char) :
    clean_summary_content (wrapJsonFence s) = pyStrip s := by
  have hws : wrapJsonFence s = "```json\n".data ++ (s ++ "\n```".data) := rfl
  -- step 1: the outer strip leaves the fenced text unchanged
  have hfront : (wrapJsonFence s).dropWhile isPyWS = wrapJsonFence s := by
    rw [hws]
    exact dropWhile_append_ne_nil _ _ _ (by decide) (by decide)
  have hrev : (wrapJsonFence s).reverse
      = "\n```".data.reverse ++ (s.reverse ++ "```json\n".data.reverse) := by
    rw [hws]
    simp [List.reverse_append]
  have hback : (wrapJsonFence s).reverse.dropWhile isPyWS
      = (wrapJsonFence s).reverse := by
    rw [hrev]
    exact dropWhile_append_ne_nil _ _ _ (by decide) (by decide)
  have hc1 : pyStrip (wrapJsonFence s) = wrapJsonFence s :=
    pyStrip_eq_self _ hfront hback
  -- step 2: the ```json prefix is found and dropped
  have hpre : isPre "```json".data (wrapJsonFence s) = true := by
    rw [isPre_iff_take, hws]
    rw [List.take_append_of_le_length (by decide)]
    decide
  have hdrop7 : (wrapJsonFence s).drop 7 = '\n' :: (s ++ "\n```".data) := by
    rw [hws, List.drop_append_of_le_length (by decide)]
    have h7 : "```json\n".data.drop 7 = ['\n'] := by decide
    rw [h7]
    rfl
  -- step 3: the dropped text does not start with a bare fence
  have hnotpre3 : isPre "```".data ('\n' :: (s ++ "\n```".data)) = false := by
    rw [← Bool.not_eq_true]
    intro hcontra
    have hhead := isPre_head "```".data _ (by decide) (by simp) hcontra
    simp only [List.head?_cons] at hhead
    have : "```".data.head? ≠ some '\n' := by decide
    exact this hhead
  -- step 4: the trailing fence is found and removed
  have hends : endsW "```".data ('\n' :: (s ++ "\n```".data)) = true := by
    unfold endsW
    rw [isPre_iff_take]
    have hrev3 : ('\n' :: (s ++ "\n```".data)).reverse
        = "\n```".data.reverse ++ (s.reverse ++ ['\n']) := by
      simp [List.reverse_append]
    rw [hrev3]
    have hlen : "```".data.reverse.length = 3 := by decide
    rw [hlen, List.take_append_of_le_length (by decide)]
    decide
  have hsplit : '\n' :: (s ++ "\n```".data)
      = ('\n' :: (s ++ ['\n'])) ++ "```".data := by
    have : "\n```".data = ['\n'] ++ "```".data := by decide
    rw [this]
    simp
  have htake : ('\n' :: (s ++ "\n```".data)).take
      (('\n' :: (s ++ "\n```".data)).length - 3) = '\n' :: (s ++ ['\n']) := by
    rw [hsplit]
    have hlen3 : ("```".data).length = 3 := by decide
    rw [List.length_append, hlen3, Nat.add_sub_cancel,
      List.take_append_of_le_length (Nat.le_refl _), List.take_length]
  unfold clean_summary_content
  simp only [hc1, hpre, hdrop7, hnotpre3, hends, htake, if_true,
    Bool.false_eq_true, if_false, eq_self_iff_true]
  exact pyStrip_newline_wrap s

theorem isPre_of_isPre_append (p q l : List Char)
    (h : isPre (p ++ q) l = true) : isPre p l = true := by
  rw [isPre_iff_take] at h ⊢
  have h3 := congrArg (List.take p.length) h
  rw [List.take_take, Nat.min_eq_left (by simp), List.take_append_of_le_length
    (Nat.le_refl _), List.take_length] at h3
  exact h3

theorem clean_summary_content_unfenced (s : List Char)
    (h1 : isPre "```".data (pyStrip s) = false)
    (h2 : endsW "```".data (pyStrip s) = false) :
    clean_summary_content s = pyStrip (pyStrip s) := by
  have h7 : isPre "```json".data (pyStrip s) = false := by
    rw [← Bool.not_eq_true]
    intro h
    have : isPre "```".data (pyStrip s) = true := by
      have hj : "```json".data = "```".data ++ "json".data := by decide
      exact isPre_of_isPre_append _ _ _ (hj ▸ h)
    rw [h1] at this
    exact Bool.false_ne_true this
  unfold clean_summary_content
  simp only [h7, h1, h2, Bool.false_eq_true, if_false]

theorem length_filter_add_length_filter_not (p : ExtractResult → Bool) :
    ∀ (l : List ExtractResult),
      (l.filter p).length + (l.filter (fun r => !p r)).length = l.length := by
  intro l
  induction l with
  | nil => simp
  | cons r rs ih =>
    by_cases hr : p r
    · simp [List.filter_cons, hr, ih, Nat.succ_add]
    · simp only [List.filter_cons, hr, Bool.false_eq_true, if_false,
        Bool.not_false, if_true, List.length_cons]
      omega

theorem endsW_txt_not_pdf (f : List Char)
    (h : endsW ".txt".data f = true) : endsW ".pdf".data f = false := by
  unfold endsW at h ⊢
  rw [← Bool.not_eq_true]
  intro hcontra
  have h1 := isPre_head _ _ (by decide) ?hne h
  case hne =>
    intro hnil
    rw [hnil] at h
    exact absurd h (by decide)
  have h2 := isPre_head _ _ (by decide) ?hne2 hcontra
  case hne2 =>
    intro hnil
    rw [hnil] at hcontra
    exact absurd hcontra (by decide)
  rw [← h1] at h2
  exact absurd h2 (by decide)

theorem endsW_fte_not_pdf :
    endsW ".pdf".data "full_text_extraction.txt".data = false := by decide

theorem load_extracted_documents_append (a b : List DiskFolder) :
    load_extracted_documents (a ++ b)
      = load_extracted_documents a ++ load_extracted_documents b := by
  unfold load_extracted_documents
  rw [List.filterMap_append]

theorem load_extracted_documents_central (centralFiles : List (List Char))
    (hcentral : ∀ f ∈ centralFiles, endsW ".txt".data f = true) :
    load_extracted_documents
      [{ name := "full_text_extractions".data, files := centralFiles }] = [] := by
  unfold load_extracted_documents
  simp only [List.filterMap_cons, List.filterMap_nil]
  have hfilter : centralFiles.filter (fun f => endsW ".pdf".data f) = [] := by
    rw [List.filter_eq_nil_iff]
    intro f hf
    simp [endsW_txt_not_pdf f (hcentral f hf)]
  by_cases hmem : "full_text_extraction.txt".data ∈ centralFiles
  · simp [hmem, hfilter]
  · simp [hmem]

/-- On an all-PDF batch, the loader reconstructs exactly the in-memory
phase-1 list (folders and source-file references). -/
theorem load_extracted_documents_pdf_batch (docs : List IntakeDoc)
    (centralFiles : List (List Char))
    (hdocs : ∀ d ∈ docs, d.ftype = FType.pdf ∧ endsW ".pdf".data d.fname = true)
    (hcentral : ∀ f ∈ centralFiles, endsW ".txt".data f = true) :
    load_extracted_documents (caseFolders docs centralFiles)
      = phase1InMemory docs := by
  unfold caseFolders
  rw [load_extracted_documents_append,
    load_extracted_documents_central centralFiles hcentral, List.append_nil]
  revert hdocs
  induction docs with
  | nil => intro _; rfl
  | cons d ds ih =>
    intro hdocs
    obtain ⟨hfty, hpdf⟩ := hdocs d (List.mem_cons_self _ _)
    have hfiles : docFolderFiles d
        = [d.fname, "full_text_extraction.txt".data] := by
      unfold docFolderFiles
      rw [hfty]
      rfl
    have hmem : "full_text_extraction.txt".data ∈ docFolderFiles d := by
      rw [hfiles]; simp
    have hfilter : (docFolderFiles d).filter (fun f => endsW ".pdf".data f)
        = [d.fname] := by
      rw [hfiles]
      simp only [List.filter_cons, hpdf, if_true]
      rw [if_neg]
      · simp
      · decide
    rw [List.map_cons]
    unfold load_extracted_documents
    rw [List.filterMap_cons]
    simp only [hmem, if_true, hfilter]
    have ih2 := ih (fun x hx => hdocs x (List.mem_cons_of_mem _ hx))
    unfold load_extracted_documents at ih2
    rw [ih2]
    rfl

theorem retryAux_calls_le (o : Nat → CallOutcome) (maxRetries : Nat) :
    ∀ (fuel attempt : Nat), (retryAux o maxRetries attempt fuel).calls ≤ fuel := by
  intro fuel
  induction fuel with
  | zero => intro attempt; simp [retryAux]
  | succ fuel ih =>
    intro attempt
    unfold retryAux
    cases o attempt with
    | timedOut =>
      by_cases h : attempt < maxRetries - 1
      · simp only [if_pos h]
        have := ih (attempt + 1)
        omega
      · simp [if_neg h]
    | completed z rl created =>
      cases z with
      | false =>
        by_cases h : rl = true ∧ attempt < maxRetries - 1
        · simp only [if_pos h]
          have := ih (attempt + 1)
          omega
        · simp [if_neg h]
      | true =>
        by_cases h : created = true
        · simp [h]
        · simp [h]

theorem retryAux_calls_pos (o : Nat → CallOutcome) (maxRetries : Nat) :
    ∀ (fuel attempt : Nat), 1 ≤ fuel →
      1 ≤ (retryAux o maxRetries attempt fuel).calls := by
  intro fuel
  cases fuel with
  | zero => intro attempt h; omega
  | succ fuel =>
    intro attempt _
    unfold retryAux
    cases o attempt with
    | timedOut =>
      by_cases h : attempt < maxRetries - 1
      · simp [if_pos h]
      · simp [if_neg h]
    | completed z rl created =>
      cases z with
      | false =>
        by_cases h : rl = true ∧ attempt < maxRetries - 1
        · simp [if_pos h]
        · simp [if_neg h]
      | true =>
        by_cases h : created = true
        · simp [h]
        · simp [h]

theorem detect_document_type_fallback (stem : List Char)
    (h : ∀ tp ∈ DOCUMENT_TYPE_PATTERNS, ∀ p ∈ tp.2,
      containsSub (stem.map Char.toLower) p = false) :
    detect_document_type stem = stem := by
  unfold detect_document_type
  have hnone : DOCUMENT_TYPE_PATTERNS.find?
      (fun tp => tp.2.any (fun p => containsSub (stem.map Char.toLower) p))
        = none := by
    rw [List.find?_eq_none]
    intro tp htp
    intro hany
    rw [List.any_eq_true] at hany
    obtain ⟨p, hp, hsub⟩ := hany
    rw [h tp htp p hp] at hsub
    exact Bool.false_ne_true hsub
  rw [hnone]

theorem router_success (j : ExtractJob) :
    (extract_single_document_router j).success = job_ok j := by
  unfold extract_single_document_router job_ok
  cases j.outcome <;> rfl

theorem filter_router_not_length : ∀ (jobs : List ExtractJob),
    ((jobs.map extract_single_document_router).filter
        (fun r => !r.success)).length
      = (jobs.filter (fun j => !job_ok j)).length := by
  intro jobs
  induction jobs with
  | nil => rfl
  | cons j js ih =>
    rw [List.map_cons, List.filter_cons, List.filter_cons, router_success]
    by_cases h : job_ok j
    · simp only [h, Bool.not_true, Bool.false_eq_true, if_false, ih]
    · have h' : job_ok j = false := by simpa using h
      simp only [h', Bool.not_false, if_true, List.length_cons, ih]

theorem phase1_total (cpu : Nat) (jobs : List ExtractJob) :
    (phase_1_extract_all cpu jobs).successful.length
      + (phase_1_extract_all cpu jobs).failed.length = jobs.length := by
  unfold phase_1_extract_all
  cases hj : jobs.isEmpty
  · simp only [Bool.false_eq_true, if_false]
    rw [length_filter_add_length_filter_not (fun r => r.success)]
    exact jobs.length_map _
  · rw [List.isEmpty_iff.mp hj]
    rfl

theorem phase1_failed_count (cpu : Nat) (jobs : List ExtractJob) :
    (phase_1_extract_all cpu jobs).failed.length
      = (jobs.filter (fun j => !job_ok j)).length := by
  unfold phase_1_extract_all
  cases hj : jobs.isEmpty
  · simp only [Bool.false_eq_true, if_false]
    exact filter_router_not_length jobs
  · rw [List.isEmpty_iff.mp hj]
    rfl

theorem run_all_phases_phase2Input (cpu : Nat) (jobs : List ExtractJob) :
    (run_all_phases cpu jobs).phase2Input.getD []
      = (phase_1_extract_all cpu jobs).successful := by
  unfold run_all_phases
  cases h : (phase_1_extract_all cpu jobs).successful.isEmpty
  · rw [if_neg (by simp [h])]
    rfl
  · rw [if_pos h]
    exact (List.isEmpty_iff.mp h).symm

/-- C1 (as stated, refuted): running `summarize` alone after a successful
extract run is NOT equivalent to the in-memory handoff for every case
state.  Concrete refutation: a case whose single intake file is the
plaintext `note.txt` — extraction succeeds and `run_all_phases` passes
one document record to phase 2, but `_load_extracted_documents` scans for
`full_text_extraction.txt` (which the plaintext handler never writes) and
a `*.pdf` source, so it reconstructs the empty list. -/
theorem c1_counterexample :
    load_extracted_documents (caseFolders
        [{ stem := "note".data, fname := "note.txt".data, ftype := FType.txt }]
        ["note.txt".data])
      ≠ phase1InMemory
        [{ stem := "note".data, fname := "note.txt".data,
           ftype := FType.txt }] := by
  decide

/-- C1 (amended): the reconstruction equivalence holds exactly for
all-PDF batches.  For a successful extract run whose documents are all
PDFs, `_load_extracted_documents` rebuilds the same (folder, source-file)
list that `run_all_phases` passes in memory from phase 1 to phase 2;
non-PDF documents (plaintext: no `full_text_extraction.txt`; other types:
no `*.pdf` in the folder) are dropped by the loader. -/
theorem c1_resume_reconstructs_pdf_batch (docs : List IntakeDoc)
    (centralFiles : List (List Char))
    (hdocs : ∀ d ∈ docs, d.ftype = FType.pdf ∧ endsW ".pdf".data d.fname = true)
    (hcentral : ∀ f ∈ centralFiles, endsW ".txt".data f = true) :
    load_extracted_documents (caseFolders docs centralFiles)
      = phase1InMemory docs :=
  load_extracted_documents_pdf_batch docs centralFiles hdocs hcentral

theorem c1_resume_reconstructs_pdf_batch_witness :
    load_extracted_documents (caseFolders
        [{ stem := "notice".data, fname := "notice.pdf".data,
           ftype := FType.pdf }] ["notice.txt".data])
      = phase1InMemory
        [{ stem := "notice".data, fname := "notice.pdf".data,
           ftype := FType.pdf }] :=
  c1_resume_reconstructs_pdf_batch _ _ (by decide) (by decide)

/-- C2: the reconstructed extraction text is the concatenation, in page
order, of `--- Page N ---` (1-indexed), a newline, the page content, and
two newlines; on pages `["A", "B", "C"]` it equals the exact literal
given in the spec. -/
theorem c2_page_reconstruction :
    (∀ pages : List (List Char),
        extract_text_pages 0 pages = reconstructedText pages)
      ∧ extract_text_pages 0 ["A".data, "B".data, "C".data]
          = ("--- Page 1 ---\nA\n\n--- Page 2 ---\nB\n\n"
              ++ "--- Page 3 ---\nC\n\n").data :=
  ⟨extract_text_eq_reconstructed, by decide⟩

/-- C3 (as stated, refuted): the claim's pool-size formula
`min(10, hardware parallelism, item count)` fails for the summarization
phase: with 4 CPUs and a single document, `phase_2_summarize_all` creates
a pool of `min(10, 4) = 4` workers, not `min(10, 4, 1) = 1` — its pool
size never consults the item count. -/
theorem c3_counterexample :
    (phase_2_summarize_all 4 10
        [{ name := "a".data, outcome := Except.ok () }]).workers = some 4
      ∧ (phase_2_summarize_all 4 10
          [{ name := "a".data, outcome := Except.ok () }]).workers
        ≠ some (min (min 10 4) 1) := by
  constructor
  · rfl
  · decide

/-- C3 (amended): for a nonempty batch, the extraction phase's pool size
is `min(10, cpu_count(), n)`, while the summarization phase's pool size
is `min(10, cpu_count())`, independent of the item count (`num_workers`
is 10 at every call site); an empty batch creates no pool in either
phase. -/
theorem c3_pool_sizes :
    (∀ (cpu : Nat) (jobs : List ExtractJob), jobs ≠ [] →
        (phase_1_extract_all cpu jobs).workers
          = some (min (min 10 cpu) jobs.length))
      ∧ (∀ (cpu : Nat) (docs : List ExtractJob), docs ≠ [] →
          (phase_2_summarize_all cpu 10 docs).workers = some (min 10 cpu)) := by
  constructor
  · intro cpu jobs hne
    unfold phase_1_extract_all
    rw [if_neg (by simpa using hne)]
  · intro cpu docs hne
    unfold phase_2_summarize_all
    rw [if_neg (by simpa using hne)]

/-- C5: per-item extraction failures are captured, never escaping the
batch loop (every job yields a result, successes plus failures exhaust
the batch), the failed count equals the number of failing jobs, the
successful count is the complement, and `run_all_phases` hands phase 2
exactly phase 1's successful items; on the spec's example batch of 5
items with 2 failures this gives `successful = 3, failed = 2`. -/
theorem c5_failure_partition :
    (∀ (cpu : Nat) (jobs : List ExtractJob),
        (phase_1_extract_all cpu jobs).successful.length
            + (phase_1_extract_all cpu jobs).failed.length = jobs.length
          ∧ (phase_1_extract_all cpu jobs).failed.length
            = (jobs.filter (fun j => !job_ok j)).length
          ∧ (phase_1_extract_all cpu jobs).successful.length
            = jobs.length - (jobs.filter (fun j => !job_ok j)).length
          ∧ (run_all_phases cpu jobs).phase2Input.getD []
            = (phase_1_extract_all cpu jobs).successful)
      ∧ (phase_1_extract_all 4
          [{ name := "a".data, outcome := Except.ok () },
           { name := "b".data, outcome := Except.error "err".data },
           { name := "c".data, outcome := Except.ok () },
           { name := "d".data, outcome := Except.error "err".data },
           { name := "e".data, outcome := Except.ok () }]).successful.length = 3
      ∧ (phase_1_extract_all 4
          [{ name := "a".data, outcome := Except.ok () },
           { name := "b".data, outcome := Except.error "err".data },
           { name := "c".data, outcome := Except.ok () },
           { name := "d".data, outcome := Except.error "err".data },
           { name := "e".data, outcome := Except.ok () }]).failed.length = 2 := by
  refine ⟨fun cpu jobs => ⟨phase1_total cpu jobs, phase1_failed_count cpu jobs,
    ?_, run_all_phases_phase2Input cpu jobs⟩, rfl, rfl⟩
  have h1 := phase1_total cpu jobs
  have h2 := phase1_failed_count cpu jobs
  omega

/-- C9: the centralized-registry candidate name is
`sanitize(filename) ++ ".txt"`, where the sanitized base contains only
characters in `[a-z0-9_-]` and is at most 200 characters long; with an
empty centralized folder the first candidate is returned as-is. -/
theorem c9_sanitized_candidate (fn : List Char) :
    (∀ c ∈ sanitize_filename fn, isAllowedChar c = true)
      ∧ (sanitize_filename fn).length ≤ 200
      ∧ get_centralized_path [] (sanitize_filename fn) ".txt".data
          = sanitize_filename fn ++ ".txt".data :=
  ⟨sanitize_filename_allowed fn, sanitize_filename_length fn, by
    rw [get_centralized_path_empty]
    rfl⟩

/-- C4: with each returned path created before the next call, the
centralized paths are pairwise distinct for any sequence of base names
(in particular for distinct sanitized base names), and three calls with
the same original filename yield, in order, `base.txt`, `base_1.txt`,
`base_2.txt` — an incrementing counter suffix until a free name is
found. -/
theorem c4_centralized_path_collisions :
    (∀ (bases : List (List Char)) (existing : List (List Char))
        (suffix : List Char), (centralizedCallSeq existing bases suffix).Nodup)
      ∧ (∀ fn : List Char,
          centralizedCallSeq [] [sanitize_filename fn, sanitize_filename fn,
              sanitize_filename fn] ".txt".data
            = [sanitize_filename fn ++ ".txt".data,
               sanitize_filename fn ++ ('_' :: '1' :: ".txt".data),
               sanitize_filename fn ++ ('_' :: '2' :: ".txt".data)]) := by
  constructor
  · intro bases existing suffix
    exact (centralizedCallSeq_nodup_aux bases existing suffix).1
  · intro fn
    have h := centralizedCallSeq_same_base (sanitize_filename fn) ".txt".data
    simpa [List.append_assoc] using h

/-- C6: the plaintext handler copies the file content unchanged to
exactly one (fresh) path in the centralized folder and writes nothing in
the per-document folder, so no `full_text_extraction.txt` appears there;
its record reports `direct_copy` with `text_extracted = false`. -/
theorem c6_plaintext_central_only (fname content : List Char)
    (central : List (List Char)) (docFilesBefore : List (List Char))
    (hft : "full_text_extraction.txt".data ∉ docFilesBefore) :
    (extract_plaintext fname content central).centralWrites.length = 1
      ∧ (∀ w ∈ (extract_plaintext fname content central).centralWrites,
          w.content = content ∧ w.fileName ∉ central)
      ∧ (extract_plaintext fname content central).docFolderWrites = []
      ∧ "full_text_extraction.txt".data ∉ docFilesBefore
          ++ ((extract_plaintext fname content central).docFolderWrites.map
            (fun w => w.fileName)) := by
  refine ⟨rfl, ?_, rfl, ?_⟩
  · intro w hw
    simp only [extract_plaintext, List.mem_singleton] at hw
    subst hw
    exact ⟨rfl, get_centralized_path_not_mem central _ _⟩
  · simpa [extract_plaintext] using hft

theorem c6_plaintext_central_only_witness :
    (extract_plaintext "note.txt".data "hello".data []).centralWrites.length = 1
      ∧ (∀ w ∈ (extract_plaintext "note.txt".data "hello".data []).centralWrites,
          w.content = "hello".data ∧ w.fileName ∉ ([] : List (List Char)))
      ∧ (extract_plaintext "note.txt".data "hello".data []).docFolderWrites = []
      ∧ "full_text_extraction.txt".data ∉ ["note.txt".data]
          ++ ((extract_plaintext "note.txt".data
              "hello".data []).docFolderWrites.map (fun w => w.fileName)) :=
  c6_plaintext_central_only "note.txt".data "hello".data [] ["note.txt".data]
    (by decide)

/-- C7: for any parser invariant under surrounding-whitespace stripping
(as `json.loads` is), the fence-cleaning step makes a response wrapped in
markdown ` ```json ` fences parse to the same value as the unwrapped
text, and leaves the parse of an unfenced text (one that, stripped, does
not itself begin or end with a fence — true of any JSON text) unchanged. -/
theorem c7_fence_stripping {α : Type} (parse : List Char → α)
    (hparse : ∀ t, parse (pyStrip t) = parse t) (s : List Char)
    (h1 : isPre "```".data (pyStrip s) = false)
    (h2 : endsW "```".data (pyStrip s) = false) :
    parse (clean_summary_content (wrapJsonFence s)) = parse s
      ∧ parse (clean_summary_content s) = parse s := by
  constructor
  · rw [clean_summary_content_fenced, hparse]
  · rw [clean_summary_content_unfenced s h1 h2, hparse, hparse]

theorem c7_fence_stripping_witness :
    (fun _ : List Char => (0 : Nat))
        (clean_summary_content (wrapJsonFence "null".data)) = 0
      ∧ (fun _ : List Char => (0 : Nat)) (clean_summary_content "null".data)
        = 0 :=
  c7_fence_stripping (fun _ => (0 : Nat)) (fun _ => rfl) "null".data
    (by decide) (by decide)

/-- C8 (as stated, refuted): timeouts are transient but are retried with
NO backoff: three consecutive timeouts drive three subprocess calls with
an empty sleep list, contradicting "linearly increasing backoff between
attempts" for the timeout case. -/
theorem c8_counterexample :
    (generate_summary_sync (fun _ => CallOutcome.timedOut)).calls = 3
      ∧ (generate_summary_sync (fun _ => CallOutcome.timedOut)).sleeps = [] := by
  exact ⟨rfl, rfl⟩

/-- C8 (amended): the summary fallback loop makes between 1 and 3 calls;
rate-limited attempts are retried with linearly increasing backoff (2s
then 4s, `(attempt+1)*2`), timeouts are retried immediately with no
backoff, any non-transient failure (non-zero exit without a rate-limit
signal, or a missing output file) fails on the first call with no retry,
and the extraction path always makes exactly one call. -/
theorem c8_retry_policy :
    (∀ o : Nat → CallOutcome, 1 ≤ (generate_summary_sync o).calls
        ∧ (generate_summary_sync o).calls ≤ 3)
      ∧ (generate_summary_sync
          (fun _ => CallOutcome.completed false true true)).calls = 3
      ∧ (generate_summary_sync
          (fun _ => CallOutcome.completed false true true)).sleeps = [2, 4]
      ∧ (generate_summary_sync (fun _ => CallOutcome.timedOut)).sleeps = []
      ∧ (∀ (o : Nat → CallOutcome) (b : Bool),
          o 0 = CallOutcome.completed false false b →
            (generate_summary_sync o).calls = 1)
      ∧ (∀ (o : Nat → CallOutcome) (rl : Bool),
          o 0 = CallOutcome.completed true rl false →
            (generate_summary_sync o).calls = 1)
      ∧ (∀ o : Nat → CallOutcome, (extraction_attempts o).calls = 1) := by
  refine ⟨fun o => ⟨retryAux_calls_pos o 3 3 0 (by omega),
      retryAux_calls_le o 3 3 0⟩, rfl, rfl, rfl, ?_, ?_, ?_⟩
  · intro o b h
    unfold generate_summary_sync retryAux
    rw [h]
    rfl
  · intro o rl h
    unfold generate_summary_sync retryAux
    rw [h]
    rfl
  · intro o
    unfold extraction_attempts
    cases h : o 0 with
    | timedOut => rfl
    | completed z rl created => cases z <;> rfl

/-- C10: when no configured keyword pattern occurs in the lowercased
filename stem, `detect_document_type` returns the raw stem itself — an
arbitrary user-supplied string, not a fixed `Unknown`/`unsupported`
category. -/
theorem c10_type_fallback_is_stem (stem : List Char)
    (h : ∀ tp ∈ DOCUMENT_TYPE_PATTERNS, ∀ p ∈ tp.2,
      containsSub (stem.map Char.toLower) p = false) :
    detect_document_type stem = stem :=
  detect_document_type_fallback stem h

theorem c10_type_fallback_is_stem_witness :
    detect_document_type "xyz".data = "xyz".data :=
  c10_type_fallback_is_stem "xyz".data (by decide)

end ProcessIntake
